import Mathlib

/-!
Verification of the Web-Agent core: the action grammar/parser and validator
(`src/actions.py`), and the perceive-decide-act orchestration loop
(`src/agent.py`, `WebAgent.run_task`).

The parser is embedded at character level: each Python regular expression of
`ActionParser.PATTERNS` and the two marker expressions are modelled by
executable scanning functions that follow Python `re` semantics on the
relevant fragment (leftmost search, greedy `\s*` with backtracking, lazy
`(.+?)` with or without DOTALL, `re.IGNORECASE` as ASCII case folding,
`$` matching at end of text or before a final newline).

The orchestration loop is embedded with its two collaborators (browser and
inference client) abstracted as a per-iteration oracle `IterEnv`: for every
loop iteration the oracle supplies the current URL, the outcome of the
inference call (a response text or a raised error), and the outcome of a
browser dispatch, exactly the data whose handling `run_task` implements.
Side counters (`RunStats`) record how many inference calls and browser
dispatches the loop performs.
-/

namespace WebAgent

/-! ## Character-level helpers (Python `re` and `str` fragments) -/

/-- Python whitespace class `\s` (ASCII range), also used by `str.strip`. -/
def pySpace (c : Char) : Bool :=
  decide (c = ' ') || decide (c = '\t') || decide (c = '\n') ||
  decide (c = '\r') || decide (c = '\x0b') || decide (c = '\x0c')

/-- `str.strip()` on a character list. -/
def pyStrip (l : List Char) : List Char :=
  ((l.dropWhile pySpace).reverse.dropWhile pySpace).reverse

/-- ASCII case folding on code points, modelling `re.IGNORECASE`. -/
def lcNat (n : Nat) : Nat := if 65 ≤ n ∧ n ≤ 90 then n + 32 else n

/-- Case-insensitive character comparison. -/
def lcEq (a b : Char) : Bool := decide (lcNat a.toNat = lcNat b.toNat)

/-- Does `s` start with the literal `pat`, case-insensitively? -/
def leadsCI : List Char → List Char → Bool
  | [], _ => true
  | _ :: _, [] => false
  | p :: ps, c :: cs => lcEq p c && leadsCI ps cs

/-- Does `pat` occur case-insensitively anywhere in the list? -/
def hasCI (pat : List Char) : List Char → Bool
  | [] => leadsCI pat []
  | l@(_ :: cs) => leadsCI pat l || hasCI pat cs

/-- Leftmost-match search: at each position, if the literal `pat` matches
    case-insensitively, try the rest-of-pattern matcher `restM` on what
    follows; the first position where both succeed wins (Python
    `re.search` on patterns of shape `<literal><rest>`). -/
def reSearch {α : Type} (pat : List Char) (restM : List Char → Option α) :
    List Char → Option α
  | [] => if leadsCI pat [] then restM [] else none
  | l@(_ :: cs) =>
    if leadsCI pat l then
      match restM (l.drop pat.length) with
      | some x => some x
      | none => reSearch pat restM cs
    else reSearch pat restM cs

/-- Length of the leading whitespace run (what greedy `\s*` consumes first). -/
def wsCount : List Char → Nat
  | [] => 0
  | c :: cs => if pySpace c then wsCount cs + 1 else 0

/-- Lazy `(.+?)` under `re.DOTALL`: shortest nonempty capture whose right
    context satisfies the lookahead `look`. -/
def lazyDotAll (look : List Char → Bool) : List Char → Option (List Char)
  | [] => none
  | c :: cs => if look cs then some [c] else (lazyDotAll look cs).map (fun t => c :: t)

/-- Lazy `(.+?)` without DOTALL: `.` refuses newline. -/
def lazyNoNL (look : List Char → Bool) : List Char → Option (List Char)
  | [] => none
  | c :: cs =>
    if c = '\n' then none
    else if look cs then some [c] else (lazyNoNL look cs).map (fun t => c :: t)

/-- Greedy `\s*` followed by a capture: try consuming `k` whitespace
    characters, from the full run down to zero (regex backtracking order). -/
def greedyWs (cap : List Char → Option (List Char)) (r : List Char) :
    Nat → Option (List Char)
  | 0 => cap r
  | k + 1 =>
    match cap (r.drop (k + 1)) with
    | some t => some t
    | none => greedyWs cap r k

/-- `\s*(.+?)` composed: greedy whitespace then the lazy capture. -/
def wsThenCap (cap : List Char → Option (List Char)) (r : List Char) :
    Option (List Char) :=
  greedyWs cap r (wsCount r)

/-- The literal `thought:` marker (case folded). -/
def thoughtPat : List Char := ['t', 'h', 'o', 'u', 'g', 'h', 't', ':']

/-- The literal `action:` marker (case folded). -/
def actionPat : List Char := ['a', 'c', 't', 'i', 'o', 'n', ':']

/-- Lookahead `(?=\nAction:|$)` of the reasoning regex; `$` holds at end of
    text or just before a final newline. -/
def lookTA (u : List Char) : Bool :=
  leadsCI ('\n' :: actionPat) u || u.isEmpty || decide (u = ['\n'])

/-- Lookahead `(?=\n|$)` of the command-line regex. -/
def lookNL : List Char → Bool
  | [] => true
  | c :: _ => decide (c = '\n')

/-- `re.search(r"Thought:\s*(.+?)(?=\nAction:|$)", text, DOTALL | IGNORECASE)`
    followed by `.strip()` on the capture; empty when the marker is absent. -/
def thoughtReason (s : List Char) : List Char :=
  match reSearch thoughtPat (fun r => wsThenCap (lazyDotAll lookTA) r) s with
  | some cap => pyStrip cap
  | none => []

/-- `re.search(r"Action:\s*(.+?)(?=\n|$)", text, IGNORECASE)`: the first line
    following the `Action:` marker (capture before `.strip()`). -/
def actionLine (s : List Char) : Option (List Char) :=
  reSearch actionPat (fun r => wsThenCap (lazyNoNL lookNL) r) s

/-! ## Action data model (`src/actions.py`) -/

/-- `Action.type` together with the fields its `params` dict carries for that
    kind. Coordinates and amounts are Python ints, seconds a Python float
    (modelled as an exact rational). -/
inductive ActionData : Type where
  | click (x y : Int)
  | typeText (text : String)
  | scroll (direction : String) (amount : Int)
  | wait (seconds : Rat)
  | press (key : String)
  | finish
  | fail (reason : String)
  deriving DecidableEq

/-- The `Action` dataclass: kind + params, plus the extracted reasoning. -/
structure Action where
  data : ActionData
  reasoning : String
  deriving DecidableEq

/-- `Action.__str__`: `f"{type.value}({k}={v}, ...)"` over the params dict. -/
def actionStr (a : Action) : String :=
  match a.data with
  | .click x y => "click(x=" ++ toString x ++ ", y=" ++ toString y ++ ")"
  | .typeText t => "type(text=" ++ t ++ ")"
  | .scroll d n => "scroll(direction=" ++ d ++ ", amount=" ++ toString n ++ ")"
  | .wait s => "wait(seconds=" ++ toString s ++ ")"
  | .press k => "press(key=" ++ k ++ ")"
  | .finish => "finish()"
  | .fail r => "fail(reason=" ++ r ++ ")"

/-! ## The regex table `ActionParser.PATTERNS` -/

/-- Greedy `\d+`-style run: longest leading digit run and the remainder. -/
def digitsTake : List Char → List Char × List Char
  | [] => ([], [])
  | c :: cs =>
    if c.isDigit then
      let p := digitsTake cs
      (c :: p.1, p.2)
    else ([], c :: cs)

/-- Numeric value of a digit run (`int(...)` on the matched group). -/
def digitsVal (l : List Char) : Nat :=
  l.foldl (fun acc c => 10 * acc + (c.toNat - 48)) 0

/-- Python `\w` (ASCII range). -/
def isWordChar (c : Char) : Bool := c.isAlphanum || decide (c = '_')

/-- Greedy `\w+`-style run. -/
def wordTake : List Char → List Char × List Char
  | [] => ([], [])
  | c :: cs =>
    if isWordChar c then
      let p := wordTake cs
      (c :: p.1, p.2)
    else ([], c :: cs)

/-- The character class `['\"]` (either quote style). -/
def isQuote (c : Char) : Bool := decide (c = '\x27') || decide (c = '"')

/-- ASCII `str.lower()` via `Char.toLower`. -/
def lowerList (l : List Char) : List Char := l.map Char.toLower

/-- Rest of `click\((\d+),\s*(\d+)\)` after the `click(` literal, combined
    with `_create_action`: ints from both digit groups. -/
def clickArgs (r : List Char) : Option ActionData :=
  let p1 := digitsTake r
  if p1.1.isEmpty then none else
  match p1.2 with
  | ',' :: r2 =>
    let r3 := r2.drop (wsCount r2)
    let p2 := digitsTake r3
    if p2.1.isEmpty then none else
    match p2.2 with
    | ')' :: _ => some (.click (digitsVal p1.1 : Int) (digitsVal p2.1 : Int))
    | _ => none
  | _ => none

/-- Lookahead used by the lazy captures of `type(...)` and `fail(...)`:
    the capture must be followed by a closing quote and `)`. -/
def lookQP : List Char → Bool
  | q :: c :: _ => isQuote q && decide (c = ')')
  | _ => false

/-- Rest of `type\(['\"](.+?)['\"]\)` after the `type(` literal. -/
def typeArgs (r : List Char) : Option ActionData :=
  match r with
  | q :: rest =>
    if isQuote q then (lazyNoNL lookQP rest).map (fun t => .typeText t.asString)
    else none
  | [] => none

/-- Rest of `scroll\((\w+)(?:,\s*(\d+))?\)` after the `scroll(` literal;
    `_create_action` lowercases the direction and defaults the amount to 500. -/
def scrollArgs (r : List Char) : Option ActionData :=
  let pw := wordTake r
  if pw.1.isEmpty then none else
  match pw.2 with
  | ')' :: _ => some (.scroll (lowerList pw.1).asString 500)
  | ',' :: r2 =>
    let r3 := r2.drop (wsCount r2)
    let pd := digitsTake r3
    if pd.1.isEmpty then none else
    match pd.2 with
    | ')' :: _ => some (.scroll (lowerList pw.1).asString (digitsVal pd.1 : Int))
    | _ => none
  | _ => none

/-- Rest of `wait\((\d+(?:\.\d+)?)\)`; `float(...)` modelled exactly as a
    rational. -/
def waitArgs (r : List Char) : Option ActionData :=
  let p1 := digitsTake r
  if p1.1.isEmpty then none else
  match p1.2 with
  | ')' :: _ => some (.wait (digitsVal p1.1 : Rat))
  | '.' :: r2 =>
    let p2 := digitsTake r2
    if p2.1.isEmpty then none else
    match p2.2 with
    | ')' :: _ =>
      some (.wait ((digitsVal p1.1 : Rat) + (digitsVal p2.1 : Rat) / (10 : Rat) ^ p2.1.length))
    | _ => none
  | _ => none

/-- Rest of `press\(['\"](\w+)['\"]\)` after the `press(` literal. -/
def pressArgs (r : List Char) : Option ActionData :=
  match r with
  | q :: r1 =>
    if isQuote q then
      let pw := wordTake r1
      if pw.1.isEmpty then none else
      match pw.2 with
      | q2 :: ')' :: _ => if isQuote q2 then some (.press pw.1.asString) else none
      | _ => none
    else none
  | [] => none

/-- Rest of `finish\(\)` after the `finish(` literal. -/
def finishArgs (r : List Char) : Option ActionData :=
  match r with
  | ')' :: _ => some .finish
  | _ => none

/-- Rest of `fail\(['\"](.+?)['\"]\)` after the `fail(` literal. -/
def failArgs (r : List Char) : Option ActionData :=
  match r with
  | q :: rest =>
    if isQuote q then (lazyNoNL lookQP rest).map (fun t => .fail t.asString)
    else none
  | [] => none

def clickKw : List Char := ['c', 'l', 'i', 'c', 'k', '(']
def typeKw : List Char := ['t', 'y', 'p', 'e', '(']
def scrollKw : List Char := ['s', 'c', 'r', 'o', 'l', 'l', '(']
def waitKw : List Char := ['w', 'a', 'i', 't', '(']
def pressKw : List Char := ['p', 'r', 'e', 's', 's', '(']
def finishKw : List Char := ['f', 'i', 'n', 'i', 's', 'h', '(']
def failKw : List Char := ['f', 'a', 'i', 'l', '(']

/-- Try each pattern of `ActionParser.PATTERNS` in the table's insertion
    order (Click, Type, Scroll, Wait, Press, Finish, Fail); first match wins. -/
def matchAction (t : List Char) : Option ActionData :=
  (reSearch clickKw clickArgs t).orElse fun _ =>
  (reSearch typeKw typeArgs t).orElse fun _ =>
  (reSearch scrollKw scrollArgs t).orElse fun _ =>
  (reSearch waitKw waitArgs t).orElse fun _ =>
  (reSearch pressKw pressArgs t).orElse fun _ =>
  (reSearch finishKw finishArgs t).orElse fun _ =>
  reSearch failKw failArgs t

namespace ActionParser

/-- `ActionParser.parse` on a character list: extract the reasoning, extract
    the first line after `Action:` (stripped), then match the pattern table. -/
def parseL (s : List Char) : Option Action :=
  let reasoning := thoughtReason s
  match actionLine s with
  | none => none
  | some raw =>
    match matchAction (pyStrip raw) with
    | none => none
    | some d => some ⟨d, reasoning.asString⟩

/-- `ActionParser.parse` on a string. -/
def parse (s : String) : Option Action := parseL s.data

/-- `ActionParser.validate_action`: returns (ok, message). -/
def validate_action (a : Action) (vw vh : Int) : Bool × String :=
  match a.data with
  | .click x y =>
    if ¬ (0 ≤ x ∧ x ≤ vw ∧ 0 ≤ y ∧ y ≤ vh) then
      (false, "Click coordinates (" ++ toString x ++ ", " ++ toString y ++
        ") outside viewport " ++ toString vw ++ "x" ++ toString vh)
    else (true, "")
  | .scroll d _ =>
    if ¬ (d = "up" ∨ d = "down") then (false, "Invalid scroll direction: " ++ d)
    else (true, "")
  | .wait s =>
    if s > 10 then (false, "Wait time too long (max 10s)") else (true, "")
  | _ => (true, "")

end ActionParser

/-! ## Configuration (`src/config.py`) -/

def VIEWPORT_WIDTH : Int := 1280
def VIEWPORT_HEIGHT : Int := 720
def MAX_STEPS : Nat := 15

/-! ## Orchestrator (`src/agent.py`, `WebAgent.run_task`) -/

/-- Per-iteration behavior of the two collaborators: the page URL reported by
    the browser, the outcome of the inference call (`.ok` response text, or
    `.error detail` when the call raises), and the `(executed, message)`
    outcome the browser would report if an action is dispatched. -/
structure IterEnv where
  url : String
  inference : Except String String
  execOk : Bool
  execMsg : String

/-- One trajectory entry, as appended by `run_task`: terminal entries carry
    no `result`, executed entries carry the browser's message. -/
structure TrajEntry where
  step : Nat
  action : String
  reasoning : String
  url : String
  result : Option String
  deriving DecidableEq

/-- The result dict of `run_task` (`error` key absent on success). -/
structure RunResult where
  success : Bool
  error : Option String
  steps : Nat
  trajectory : List TrajEntry
  deriving DecidableEq

/-- Effect counters: inference calls made and browser dispatches performed. -/
structure RunStats where
  inferenceCalls : Nat
  browserDispatches : Nat
  deriving DecidableEq

/-- Is the action kind terminal (`Finish` or `Fail`)? -/
def isTerminalData : ActionData → Bool
  | .finish => true
  | .fail _ => true
  | _ => false

/-- One iteration of the `run_task` loop body, after the inference call is
    issued: either the run ends now (`.inl` result) or the loop continues
    with updated history and trajectory; the Bool records whether the browser
    was dispatched to. -/
def runIter (vw vh : Int) (e : IterEnv) (step : Nat) (hist : List String)
    (traj : List TrajEntry) : Sum RunResult (List String × List TrajEntry × Bool) :=
  match e.inference with
  | .error d =>
    .inl { success := false, error := some ("Model inference failed: " ++ d),
           steps := step - 1, trajectory := traj }
  | .ok response =>
    match ActionParser.parse response with
    | none => .inr (hist, traj, false)
    | some action =>
      if (ActionParser.validate_action action vw vh).1 = false then .inr (hist, traj, false)
      else
        match action.data with
        | .finish =>
          let entry : TrajEntry := ⟨step, actionStr action, action.reasoning, e.url, none⟩
          .inl { success := true, error := none, steps := step, trajectory := traj ++ [entry] }
        | .fail reason =>
          let entry : TrajEntry := ⟨step, actionStr action, action.reasoning, e.url, none⟩
          .inl { success := false, error := some reason, steps := step,
                 trajectory := traj ++ [entry] }
        | _ =>
          if e.execOk then
            let entry : TrajEntry :=
              ⟨step, actionStr action, action.reasoning, e.url, some e.execMsg⟩
            .inr (hist ++ [actionStr action ++ " - " ++ action.reasoning], traj ++ [entry], true)
          else .inr (hist, traj, true)

/-- The `for step in range(1, MAX_STEPS + 1)` loop: `fuel` iterations remain,
    the current iteration is numbered `step`. When fuel runs out the
    "Max steps exceeded" result is produced. -/
def runLoop (vw vh : Int) (maxSteps : Nat) (env : Nat → IterEnv) :
    Nat → Nat → List String → List TrajEntry → Nat → Nat → RunResult × RunStats
  | _, 0, _, traj, inf, disp =>
    ({ success := false, error := some ("Max steps (" ++ toString maxSteps ++ ") exceeded"),
       steps := maxSteps, trajectory := traj }, ⟨inf, disp⟩)
  | step, fuel + 1, hist, traj, inf, disp =>
    match runIter vw vh (env step) step hist traj with
    | .inl r => (r, ⟨inf + 1, disp⟩)
    | .inr (h2, t2, dispatched) =>
      runLoop vw vh maxSteps env (step + 1) fuel h2 t2 (inf + 1)
        (disp + if dispatched then 1 else 0)

/-- `WebAgent.run_task`: initial navigation, then the loop from step 1 with
    empty history and trajectory. -/
def runTask (navOk : Bool) (vw vh : Int) (maxSteps : Nat) (env : Nat → IterEnv) :
    RunResult × RunStats :=
  if navOk then runLoop vw vh maxSteps env 1 maxSteps [] [] 0 0
  else ({ success := false, error := some "Failed to load page", steps := 0,
          trajectory := [] }, ⟨0, 0⟩)

/-- Predicate: this iteration neither aborts the run nor reaches a terminal
    action — the loop proceeds to the next iteration. -/
def iterContinues (vw vh : Int) (e : IterEnv) : Bool :=
  match e.inference with
  | .error _ => false
  | .ok response =>
    match ActionParser.parse response with
    | none => true
    | some action =>
      if (ActionParser.validate_action action vw vh).1 = false then true
      else !isTerminalData action.data

/-! ## The inference call site (`src/agent.py` line 142 vs `src/inference.py` line 26) -/

/-- Parameter names of `VisionLanguageModel.predict_action` (self excluded),
    from its signature in `src/inference.py`. -/
def predictActionParams : List String := ["screenshot", "task", "history", "url"]

/-- Keyword arguments used by `WebAgent.run_task` at the
    `self.model.predict_action(...)` call site in `src/agent.py`. -/
def runTaskPredictCallKeywords : List String :=
  ["screenshot", "task", "history", "url", "user_hint"]

/-- Python keyword binding: a call binds against a signature without
    `**kwargs` exactly when every keyword names a declared parameter;
    otherwise the call raises `TypeError: unexpected keyword argument`. -/
def pyKeywordsBind (params kwargs : List String) : Bool :=
  kwargs.all fun k => params.contains k

/-! ## Concrete collaborator traces used to witness the loop theorems -/

def envFinish : Nat → IterEnv := fun _ =>
  { url := "https://example.com", inference := .ok "Thought: done\nAction: finish()",
    execOk := true, execMsg := "ok" }

def envInferError : Nat → IterEnv := fun _ =>
  { url := "https://example.com", inference := .error "boom",
    execOk := true, execMsg := "ok" }

def envGarbled : Nat → IterEnv := fun _ =>
  { url := "https://example.com", inference := .ok "no action marker here",
    execOk := true, execMsg := "ok" }

def envClick : Nat → IterEnv := fun _ =>
  { url := "https://example.com", inference := .ok "Thought: go\nAction: click(100, 100)",
    execOk := true, execMsg := "Clicked at (100, 100)" }

end WebAgent

namespace WebAgent

/-! ## Basic facts about one loop iteration -/

theorem runIter_error (vw vh : Int) (e : IterEnv) (step : Nat) (hist : List String)
    (traj : List TrajEntry) (d : String) (h : e.inference = .error d) :
    runIter vw vh e step hist traj =
      .inl ⟨false, some ("Model inference failed: " ++ d), step - 1, traj⟩ := by
  simp [runIter, h]

theorem runIter_parseMiss (vw vh : Int) (e : IterEnv) (step : Nat) (hist : List String)
    (traj : List TrajEntry) (resp : String) (hinf : e.inference = .ok resp)
    (hp : ActionParser.parse resp = none) :
    runIter vw vh e step hist traj = .inr (hist, traj, false) := by
  simp [runIter, hinf, hp]

theorem runIter_invalid (vw vh : Int) (e : IterEnv) (step : Nat) (hist : List String)
    (traj : List TrajEntry) (resp : String) (a : Action) (hinf : e.inference = .ok resp)
    (hp : ActionParser.parse resp = some a)
    (hv : (ActionParser.validate_action a vw vh).1 = false) :
    runIter vw vh e step hist traj = .inr (hist, traj, false) := by
  simp [runIter, hinf, hp, hv]

theorem runIter_finish (vw vh : Int) (e : IterEnv) (step : Nat) (hist : List String)
    (traj : List TrajEntry) (resp : String) (a : Action) (hinf : e.inference = .ok resp)
    (hp : ActionParser.parse resp = some a) (hd : a.data = .finish) :
    runIter vw vh e step hist traj =
      .inl ⟨true, none, step, traj ++ [⟨step, actionStr a, a.reasoning, e.url, none⟩]⟩ := by
  simp [runIter, hinf, hp, hd, ActionParser.validate_action]

theorem runIter_failAction (vw vh : Int) (e : IterEnv) (step : Nat) (hist : List String)
    (traj : List TrajEntry) (resp : String) (a : Action) (reason : String)
    (hinf : e.inference = .ok resp) (hp : ActionParser.parse resp = some a)
    (hd : a.data = .fail reason) :
    runIter vw vh e step hist traj =
      .inl ⟨false, some reason, step, traj ++ [⟨step, actionStr a, a.reasoning, e.url, none⟩]⟩ := by
  simp [runIter, hinf, hp, hd, ActionParser.validate_action]

theorem runIter_exec (vw vh : Int) (e : IterEnv) (step : Nat) (hist : List String)
    (traj : List TrajEntry) (resp : String) (a : Action) (hinf : e.inference = .ok resp)
    (hp : ActionParser.parse resp = some a)
    (hv : (ActionParser.validate_action a vw vh).1 = true)
    (hterm : isTerminalData a.data = false) :
    (e.execOk = false → runIter vw vh e step hist traj = .inr (hist, traj, true)) ∧
    (e.execOk = true → runIter vw vh e step hist traj =
      .inr (hist ++ [actionStr a ++ " - " ++ a.reasoning],
            traj ++ [⟨step, actionStr a, a.reasoning, e.url, some e.execMsg⟩], true)) := by
  cases hd : a.data <;> simp [isTerminalData, hd] at hterm <;>
    constructor <;> intro hx <;> simp [runIter, hinf, hp, hv, hd, hx]

theorem runIter_out (vw vh : Int) (e : IterEnv) (step : Nat) (hist : List String)
    (traj : List TrajEntry) :
    (∃ d, e.inference = .error d ∧ runIter vw vh e step hist traj =
       .inl ⟨false, some ("Model inference failed: " ++ d), step - 1, traj⟩) ∨
    (∃ r : RunResult, runIter vw vh e step hist traj = .inl r ∧ r.steps = step ∧
       r.trajectory.length = traj.length + 1) ∨
    (∃ h2 t2 dsp, runIter vw vh e step hist traj = .inr (h2, t2, dsp) ∧
       t2.length ≤ traj.length + 1) := by
  cases hinf : e.inference with
  | error d => exact Or.inl ⟨d, rfl, runIter_error vw vh e step hist traj d hinf⟩
  | ok resp =>
    cases hp : ActionParser.parse resp with
    | none =>
      exact Or.inr (Or.inr ⟨hist, traj, false,
        runIter_parseMiss vw vh e step hist traj resp hinf hp, by omega⟩)
    | some a =>
      by_cases hv : (ActionParser.validate_action a vw vh).1 = false
      · exact Or.inr (Or.inr ⟨hist, traj, false,
          runIter_invalid vw vh e step hist traj resp a hinf hp hv, by omega⟩)
      · rw [Bool.not_eq_false] at hv
        by_cases hterm : isTerminalData a.data = true
        · cases hd : a.data <;> simp [isTerminalData, hd] at hterm
          · exact Or.inr (Or.inl ⟨_, runIter_finish vw vh e step hist traj resp a hinf hp hd,
              rfl, by simp⟩)
          · exact Or.inr (Or.inl ⟨_,
              runIter_failAction vw vh e step hist traj resp a _ hinf hp hd, rfl, by simp⟩)
        · rw [Bool.not_eq_true] at hterm
          have hx := runIter_exec vw vh e step hist traj resp a hinf hp hv hterm
          cases hex : e.execOk
          · exact Or.inr (Or.inr ⟨hist, traj, true, hx.1 hex, by omega⟩)
          · exact Or.inr (Or.inr ⟨_, _, true, hx.2 hex, by simp⟩)

theorem runIter_of_continues (vw vh : Int) (e : IterEnv) (step : Nat) (hist : List String)
    (traj : List TrajEntry) (h : iterContinues vw vh e = true) :
    ∃ h2 t2 dsp, runIter vw vh e step hist traj = .inr (h2, t2, dsp) := by
  cases hinf : e.inference with
  | error d => simp [iterContinues, hinf] at h
  | ok resp =>
    cases hp : ActionParser.parse resp with
    | none => exact ⟨hist, traj, false, runIter_parseMiss vw vh e step hist traj resp hinf hp⟩
    | some a =>
      by_cases hv : (ActionParser.validate_action a vw vh).1 = false
      · exact ⟨hist, traj, false, runIter_invalid vw vh e step hist traj resp a hinf hp hv⟩
      · rw [Bool.not_eq_false] at hv
        have hterm : isTerminalData a.data = false := by
          simp [iterContinues, hinf, hp, hv] at h
          simpa using h
        have hx := runIter_exec vw vh e step hist traj resp a hinf hp hv hterm
        cases hex : e.execOk
        · exact ⟨hist, traj, true, hx.1 hex⟩
        · exact ⟨_, _, true, hx.2 hex⟩

/-! ## Loop invariants -/

theorem runLoop_steps_ge (vw vh : Int) (maxSteps : Nat) (env : Nat → IterEnv) :
    ∀ fuel step hist traj inf disp, 1 ≤ step → step + fuel = maxSteps + 1 →
      (runLoop vw vh maxSteps env step fuel hist traj inf disp).1.steps ≥ step - 1 ∧
      ((runLoop vw vh maxSteps env step fuel hist traj inf disp).1.steps = step - 1 →
        1 ≤ fuel → ∃ d, (env step).inference = .error d) := by
  intro fuel
  induction fuel with
  | zero =>
    intro step hist traj inf disp h1 h2
    constructor
    · simp [runLoop]; omega
    · intro _ hf; omega
  | succ f ih =>
    intro step hist traj inf disp h1 h2
    rcases runIter_out vw vh (env step) step hist traj with
      ⟨d, hinf, hiter⟩ | ⟨r, hiter, hsteps, _⟩ | ⟨h2l, t2, dsp, hiter, _⟩
    · constructor
      · simp [runLoop, hiter]
      · intro _ _; exact ⟨d, hinf⟩
    · constructor
      · simp [runLoop, hiter, hsteps]; try omega
      · intro hc _; simp [runLoop, hiter, hsteps] at hc; omega
    · have hrec := ih (step + 1) h2l t2 (inf + 1) (disp + if dsp then 1 else 0)
        (by omega) (by omega)
      constructor
      · simp only [runLoop, hiter]
        omega
      · intro hc _
        simp only [runLoop, hiter] at hc
        omega

theorem runLoop_bounds (vw vh : Int) (maxSteps : Nat) (env : Nat → IterEnv) :
    ∀ fuel step hist traj inf disp, step + fuel = maxSteps + 1 → 1 ≤ step →
      traj.length ≤ step - 1 →
      (runLoop vw vh maxSteps env step fuel hist traj inf disp).1.steps ≤ maxSteps ∧
      (runLoop vw vh maxSteps env step fuel hist traj inf disp).2.inferenceCalls ≤ inf + fuel ∧
      (runLoop vw vh maxSteps env step fuel hist traj inf disp).1.trajectory.length ≤ maxSteps := by
  intro fuel
  induction fuel with
  | zero =>
    intro step hist traj inf disp h1 h2 h3
    refine ⟨by simp [runLoop], by simp [runLoop], ?_⟩
    simp [runLoop]
    omega
  | succ f ih =>
    intro step hist traj inf disp h1 h2 h3
    rcases runIter_out vw vh (env step) step hist traj with
      ⟨d, hinf, hiter⟩ | ⟨r, hiter, hsteps, hlen⟩ | ⟨h2l, t2, dsp, hiter, hlen⟩
    · refine ⟨by simp [runLoop, hiter]; try omega, by simp [runLoop, hiter]; try omega, ?_⟩
      simp [runLoop, hiter]
      omega
    · refine ⟨by simp [runLoop, hiter, hsteps]; try omega, by simp [runLoop, hiter]; try omega, ?_⟩
      simp [runLoop, hiter, hlen]
      omega
    · have hrec := ih (step + 1) h2l t2 (inf + 1) (disp + if dsp then 1 else 0)
        (by omega) (by omega) (by omega)
      refine ⟨?_, ?_, ?_⟩
      · simp only [runLoop, hiter]
        exact hrec.1
      · simp only [runLoop, hiter]
        omega
      · simp only [runLoop, hiter]
        exact hrec.2.2

theorem runLoop_exhausted (vw vh : Int) (maxSteps : Nat) (env : Nat → IterEnv)
    (hc : ∀ k, iterContinues vw vh (env k) = true) :
    ∀ fuel step hist traj inf disp,
      (runLoop vw vh maxSteps env step fuel hist traj inf disp).1.success = false ∧
      (runLoop vw vh maxSteps env step fuel hist traj inf disp).1.error =
        some ("Max steps (" ++ toString maxSteps ++ ") exceeded") ∧
      (runLoop vw vh maxSteps env step fuel hist traj inf disp).1.steps = maxSteps := by
  intro fuel
  induction fuel with
  | zero => intro step hist traj inf disp; exact ⟨rfl, rfl, rfl⟩
  | succ f ih =>
    intro step hist traj inf disp
    obtain ⟨h2, t2, dsp, hiter⟩ :=
      runIter_of_continues vw vh (env step) step hist traj (hc step)
    simp only [runLoop, hiter]
    exact ih (step + 1) h2 t2 (inf + 1) (disp + if dsp then 1 else 0)

end WebAgent

namespace WebAgent

/-! ## Claim theorems -/

/-- C1: the claim says every loop iteration invokes the inference collaborator
with the quintuple (screenshot, task, last-5 history, url, hint) and receives
response text back. The code cannot do this: `WebAgent.run_task` passes the
keyword `user_hint`, but `VisionLanguageModel.predict_action` declares only
(screenshot, task, history, url), so Python keyword binding rejects the call
(`TypeError: unexpected keyword argument`) at every iteration and no inference
invocation ever receives the arguments. -/
theorem c1_predict_call_keywords_rejected :
    pyKeywordsBind predictActionParams runTaskPredictCallKeywords = false ∧
    "user_hint" ∈ runTaskPredictCallKeywords ∧ "user_hint" ∉ predictActionParams := by
  decide

/-- C2: if the action parsed at the current iteration is Finish, the run ends
with success = true, steps = current step, a terminal trajectory entry and no
browser dispatch (the dispatch counter is unchanged); if it is Fail, the run
ends with success = false, error = the Fail reason, steps = current step, a
terminal entry, no dispatch; and when every iteration continues (no terminal
action, no inference error), the whole budget is consumed and the run reports
success = false, error = "Max steps (<budget>) exceeded", steps = budget. -/
theorem c2_terminal_outcomes (vw vh : Int) (maxSteps : Nat) (env : Nat → IterEnv) :
    (∀ step fuel hist traj inf disp resp a,
      (env step).inference = .ok resp → ActionParser.parse resp = some a →
      a.data = .finish →
      runLoop vw vh maxSteps env step (fuel + 1) hist traj inf disp =
        (⟨true, none, step, traj ++ [⟨step, actionStr a, a.reasoning, (env step).url, none⟩]⟩,
         ⟨inf + 1, disp⟩)) ∧
    (∀ step fuel hist traj inf disp resp a reason,
      (env step).inference = .ok resp → ActionParser.parse resp = some a →
      a.data = .fail reason →
      runLoop vw vh maxSteps env step (fuel + 1) hist traj inf disp =
        (⟨false, some reason, step,
          traj ++ [⟨step, actionStr a, a.reasoning, (env step).url, none⟩]⟩,
         ⟨inf + 1, disp⟩)) ∧
    ((∀ k, iterContinues vw vh (env k) = true) →
      (runTask true vw vh maxSteps env).1.success = false ∧
      (runTask true vw vh maxSteps env).1.error =
        some ("Max steps (" ++ toString maxSteps ++ ") exceeded") ∧
      (runTask true vw vh maxSteps env).1.steps = maxSteps) := by
  refine ⟨?_, ?_, ?_⟩
  · intro step fuel hist traj inf disp resp a hinf hp hd
    simp [runLoop, runIter_finish vw vh (env step) step hist traj resp a hinf hp hd]
  · intro step fuel hist traj inf disp resp a reason hinf hp hd
    simp [runLoop, runIter_failAction vw vh (env step) step hist traj resp a reason hinf hp hd]
  · intro hc
    simpa [runTask] using runLoop_exhausted vw vh maxSteps env hc maxSteps 1 [] [] 0 0

/-- Witness for C2 at a concrete trace: the model answers
"Thought: done\nAction: finish()" at step 1 of a 15-step budget. -/
theorem c2_terminal_outcomes_witness :
    runLoop 1280 720 15 envFinish 1 15 [] [] 0 0 =
      (⟨true, none, 1, [⟨1, "finish()", "done", "https://example.com", none⟩]⟩, ⟨1, 0⟩) :=
  (c2_terminal_outcomes 1280 720 15 envFinish).1 1 14 [] [] 0 0
    "Thought: done\nAction: finish()" ⟨.finish, "done"⟩ rfl (by decide) rfl

/-- C3: if the inference call at the current iteration raises, the run aborts
at once with success = false, error = "Model inference failed: <detail>",
steps = step - 1 and the trajectory recorded so far; moreover on any run state
the reported steps are at least step - 1, and (for positive remaining budget)
they equal step - 1 only when this iteration's inference call raised — the
only in-loop failure mode that does not consume the current iteration. -/
theorem c3_inference_error_aborts (vw vh : Int) (maxSteps : Nat) (env : Nat → IterEnv)
    (step fuel : Nat) (hist : List String) (traj : List TrajEntry) (inf disp : Nat)
    (hstep : 1 ≤ step) (hinv : step + fuel = maxSteps + 1) :
    (∀ d, 1 ≤ fuel → (env step).inference = .error d →
      runLoop vw vh maxSteps env step fuel hist traj inf disp =
        (⟨false, some ("Model inference failed: " ++ d), step - 1, traj⟩, ⟨inf + 1, disp⟩)) ∧
    (runLoop vw vh maxSteps env step fuel hist traj inf disp).1.steps ≥ step - 1 ∧
    ((runLoop vw vh maxSteps env step fuel hist traj inf disp).1.steps = step - 1 →
      1 ≤ fuel → ∃ d, (env step).inference = .error d) := by
  refine ⟨?_, (runLoop_steps_ge vw vh maxSteps env fuel step hist traj inf disp hstep hinv).1,
    (runLoop_steps_ge vw vh maxSteps env fuel step hist traj inf disp hstep hinv).2⟩
  intro d hfuel hinf
  obtain ⟨f, rfl⟩ : ∃ f, fuel = f + 1 := ⟨fuel - 1, by omega⟩
  simp [runLoop, runIter_error vw vh (env step) step hist traj d hinf]

/-- Witness for C3 at a concrete trace: the inference call raises "boom" at
step 1, so the run aborts with 0 steps taken and an empty trajectory. -/
theorem c3_inference_error_aborts_witness :
    runLoop 1280 720 15 envInferError 1 15 [] [] 0 0 =
      (⟨false, some "Model inference failed: boom", 0, []⟩, ⟨1, 0⟩) :=
  (c3_inference_error_aborts 1280 720 15 envInferError 1 15 [] [] 0 0
    (by decide) (by decide)).1 "boom" (by decide) rfl

/-- C4: when the response does not parse to an Action, or parses to an Action
the validator rejects, the iteration produces no history or trajectory entry,
is still consumed (the loop continues at step + 1 with one less unit of
budget), and the run does not terminate on that account. -/
theorem c4_reject_consumes_step (vw vh : Int) (maxSteps : Nat) (env : Nat → IterEnv)
    (step fuel : Nat) (hist : List String) (traj : List TrajEntry) (inf disp : Nat)
    (resp : String) (hinf : (env step).inference = .ok resp)
    (h : ActionParser.parse resp = none ∨
      ∃ a, ActionParser.parse resp = some a ∧
        (ActionParser.validate_action a vw vh).1 = false) :
    runLoop vw vh maxSteps env step (fuel + 1) hist traj inf disp =
      runLoop vw vh maxSteps env (step + 1) fuel hist traj (inf + 1) disp := by
  rcases h with hp | ⟨a, hp, hv⟩
  · simp [runLoop, runIter_parseMiss vw vh (env step) step hist traj resp hinf hp]
  · simp [runLoop, runIter_invalid vw vh (env step) step hist traj resp a hinf hp hv]

/-- Witness for C4 at a concrete trace: the model answers unparseable text at
step 1; the loop moves on to step 2 with history and trajectory unchanged. -/
theorem c4_reject_consumes_step_witness :
    runLoop 1280 720 15 envGarbled 1 15 [] [] 0 0 =
      runLoop 1280 720 15 envGarbled 2 14 [] [] 1 0 :=
  c4_reject_consumes_step 1280 720 15 envGarbled 1 14 [] [] 0 0
    "no action marker here" rfl (Or.inl (by decide))

/-- C5: for a validated non-terminal action, if the browser reports
executed = false nothing is appended to history or trajectory and the loop
continues (the run is not aborted, the iteration and a dispatch are consumed);
if executed = true a trajectory entry carrying the action, reasoning, current
URL and result message is appended, together with a matching history entry. -/
theorem c5_execution_outcomes (vw vh : Int) (maxSteps : Nat) (env : Nat → IterEnv)
    (step fuel : Nat) (hist : List String) (traj : List TrajEntry) (inf disp : Nat)
    (resp : String) (a : Action) (hinf : (env step).inference = .ok resp)
    (hp : ActionParser.parse resp = some a)
    (hv : (ActionParser.validate_action a vw vh).1 = true)
    (hterm : isTerminalData a.data = false) :
    ((env step).execOk = false →
      runLoop vw vh maxSteps env step (fuel + 1) hist traj inf disp =
        runLoop vw vh maxSteps env (step + 1) fuel hist traj (inf + 1) (disp + 1)) ∧
    ((env step).execOk = true →
      runLoop vw vh maxSteps env step (fuel + 1) hist traj inf disp =
        runLoop vw vh maxSteps env (step + 1) fuel
          (hist ++ [actionStr a ++ " - " ++ a.reasoning])
          (traj ++ [⟨step, actionStr a, a.reasoning, (env step).url, some (env step).execMsg⟩])
          (inf + 1) (disp + 1)) := by
  have hx := runIter_exec vw vh (env step) step hist traj resp a hinf hp hv hterm
  constructor
  · intro hex
    simp [runLoop, hx.1 hex]
  · intro hex
    simp [runLoop, hx.2 hex]

/-- Witness for C5 at a concrete trace: a click at step 1 executes
successfully, appending matching history and trajectory entries. -/
theorem c5_execution_outcomes_witness :
    runLoop 1280 720 15 envClick 1 15 [] [] 0 0 =
      runLoop 1280 720 15 envClick 2 14 ["click(x=100, y=100) - go"]
        [⟨1, "click(x=100, y=100)", "go", "https://example.com",
          some "Clicked at (100, 100)"⟩] 1 1 :=
  (c5_execution_outcomes 1280 720 15 envClick 1 14 [] [] 0 0
    "Thought: go\nAction: click(100, 100)" ⟨.click 100 100, "go"⟩
    rfl (by decide) (by decide) (by decide)).2 rfl

/-- C6: validation rejects exactly the Click actions with x < 0, x > width,
y < 0 or y > height (bounds inclusive, so x = width and y = height pass, and
the rejection message states the coordinates and the viewport dimensions),
the Scroll actions whose direction is neither "up" nor "down", and the Wait
actions with seconds > 10 (seconds = 10 passes); Type, Press, Finish and Fail
are unconditionally accepted. -/
theorem c6_validate_characterization (a : Action) (vw vh : Int) :
    ((ActionParser.validate_action a vw vh).1 = false ↔
      ((∃ x y, a.data = .click x y ∧ (x < 0 ∨ x > vw ∨ y < 0 ∨ y > vh)) ∨
       (∃ d n, a.data = .scroll d n ∧ d ≠ "up" ∧ d ≠ "down") ∨
       (∃ s, a.data = .wait s ∧ s > 10))) ∧
    (∀ x y, a.data = .click x y → (x < 0 ∨ x > vw ∨ y < 0 ∨ y > vh) →
      (ActionParser.validate_action a vw vh).2 =
        "Click coordinates (" ++ toString x ++ ", " ++ toString y ++
        ") outside viewport " ++ toString vw ++ "x" ++ toString vh) := by
  constructor
  · cases hd : a.data with
    | click x y =>
      simp only [ActionParser.validate_action, hd]
      constructor
      · intro h
        split at h
        · rename_i hb
          exact Or.inl ⟨x, y, rfl, by omega⟩
        · simp at h
      · intro h
        rcases h with ⟨x', y', hxy, hb⟩ | ⟨d, n, hdn, _⟩ | ⟨s, hs, _⟩
        · obtain ⟨rfl, rfl⟩ : x' = x ∧ y' = y := by
            constructor <;> cases hxy <;> rfl
          rw [if_pos (by omega)]
        · cases hdn
        · cases hs
    | scroll d n =>
      simp only [ActionParser.validate_action, hd]
      constructor
      · intro h
        split at h
        · rename_i hb
          push_neg at hb
          exact Or.inr (Or.inl ⟨d, n, rfl, hb.1, hb.2⟩)
        · simp at h
      · intro h
        rcases h with ⟨x', y', hxy, _⟩ | ⟨d', n', hdn, h1, h2⟩ | ⟨s, hs, _⟩
        · cases hxy
        · obtain ⟨rfl, rfl⟩ : d' = d ∧ n' = n := by
            constructor <;> cases hdn <;> rfl
          rw [if_pos (by tauto)]
        · cases hs
    | wait s =>
      simp only [ActionParser.validate_action, hd]
      constructor
      · intro h
        split at h
        · rename_i hb
          exact Or.inr (Or.inr ⟨s, rfl, hb⟩)
        · simp at h
      · intro h
        rcases h with ⟨x', y', hxy, _⟩ | ⟨d', n', hdn, _⟩ | ⟨s', hs, hgt⟩
        · cases hxy
        · cases hdn
        · obtain rfl : s' = s := by cases hs; rfl
          rw [if_pos hgt]
    | typeText t => simp [ActionParser.validate_action, hd]
    | press k => simp [ActionParser.validate_action, hd]
    | finish => simp [ActionParser.validate_action, hd]
    | fail r => simp [ActionParser.validate_action, hd]
  · intro x y hd hb
    simp only [ActionParser.validate_action, hd]
    rw [if_pos (by omega)]

/-- Witness for C6 at a concrete action: click(2000, 300) against a 1280x720
viewport is rejected, citing the coordinates and the viewport bounds. -/
theorem c6_validate_characterization_witness :
    (ActionParser.validate_action ⟨.click 2000 300, ""⟩ 1280 720).1 = false ∧
    (ActionParser.validate_action ⟨.click 2000 300, ""⟩ 1280 720).2 =
      "Click coordinates (2000, 300) outside viewport 1280x720" := by
  constructor
  · exact (c6_validate_characterization ⟨.click 2000 300, ""⟩ 1280 720).1.mpr
      (Or.inl ⟨2000, 300, rfl, by omega⟩)
  · have h := (c6_validate_characterization ⟨.click 2000 300, ""⟩ 1280 720).2
      2000 300 rfl (by omega)
    rw [h]
    rfl

/-- C8: when the initial navigation fails, the run ends before the loop with
exactly {success: false, error: "Failed to load page", steps: 0,
trajectory: []}; no inference call is made and nothing is dispatched. -/
theorem c8_navigation_failure (vw vh : Int) (maxSteps : Nat) (env : Nat → IterEnv) :
    runTask false vw vh maxSteps env =
      (⟨false, some "Failed to load page", 0, []⟩, ⟨0, 0⟩) := rfl

/-- C9: whatever the collaborators do, the reported steps never exceed the
configured budget, at most that many inference calls are made, and the
trajectory never holds more than that many entries. -/
theorem c9_budget_bounds (navOk : Bool) (vw vh : Int) (maxSteps : Nat)
    (env : Nat → IterEnv) :
    (runTask navOk vw vh maxSteps env).1.steps ≤ maxSteps ∧
    (runTask navOk vw vh maxSteps env).2.inferenceCalls ≤ maxSteps ∧
    (runTask navOk vw vh maxSteps env).1.trajectory.length ≤ maxSteps := by
  cases navOk
  · simp [runTask]
  · have h := runLoop_bounds vw vh maxSteps env maxSteps 1 [] [] 0 0
      (by omega) (by omega) (by simp)
    simpa [runTask] using h

end WebAgent

namespace WebAgent

/-! ## Parser lemmas -/

theorem reSearch_cons_pos {α : Type} (pat : List Char) (restM : List Char → Option α)
    (c : Char) (cs : List Char) (x : α) (h1 : leadsCI pat (c :: cs) = true)
    (h2 : restM ((c :: cs).drop pat.length) = some x) :
    reSearch pat restM (c :: cs) = some x := by
  simp [reSearch, h1, h2]

theorem reSearch_cons_neg {α : Type} (pat : List Char) (restM : List Char → Option α)
    (c : Char) (cs : List Char) (h : leadsCI pat (c :: cs) = false) :
    reSearch pat restM (c :: cs) = reSearch pat restM cs := by
  simp [reSearch, h]

theorem digit_ne_nl (c : Char) (h : c.isDigit = true) : c ≠ '\n' := by
  intro he
  rw [he] at h
  exact absurd h (by decide)

theorem digit_not_space (c : Char) (h : c.isDigit = true) : pySpace c = false := by
  by_cases hq : pySpace c = true
  · simp only [pySpace, Bool.or_eq_true, decide_eq_true_eq] at hq
    rcases hq with ((((rfl | rfl) | rfl) | rfl) | rfl) | rfl <;> exact absurd h (by decide)
  · rwa [Bool.not_eq_true] at hq

theorem leadsCI_stop_at_nl :
    ∀ (pat sfx u : List Char), (∀ p ∈ pat, lcEq p '\n' = false) →
      leadsCI pat (sfx ++ '\n' :: u) = leadsCI pat (sfx ++ ['\n'])
  | [], sfx, u, _ => by cases sfx <;> rfl
  | p :: ps, [], u, hp => by
    have h0 : lcEq p '\n' = false := hp p (by simp)
    simp [leadsCI, h0]
  | p :: ps, c :: cs, u, hp => by
    simp only [List.cons_append, leadsCI, List.append_eq]
    rw [leadsCI_stop_at_nl ps cs u (fun q hq => hp q (by simp [hq]))]

theorem actionPat_no_nl : ∀ p ∈ actionPat, lcEq p '\n' = false := by decide

theorem leadsCI_extend_nl :
    ∀ (pat l : List Char), (∀ p ∈ pat, lcEq p '\n' = false) →
      leadsCI pat l = false → leadsCI pat (l ++ ['\n']) = false
  | [], l, _, h => by simp [leadsCI] at h
  | p :: ps, [], hp, _ => by
    have h0 : lcEq p '\n' = false := hp p (by simp)
    simp [leadsCI, h0]
  | p :: ps, c :: cs, hp, h => by
    simp only [leadsCI, Bool.and_eq_false_iff] at h
    rcases h with h | h
    · simp [leadsCI, h]
    · simp only [List.cons_append, leadsCI, List.append_eq]
      rw [leadsCI_extend_nl ps cs (fun q hq => hp q (by simp [hq])) h]
      simp

theorem hasCI_append_nl :
    ∀ t : List Char, hasCI actionPat t = false → hasCI actionPat (t ++ ['\n']) = false
  | [], _ => by decide
  | c :: t2, h => by
    simp only [hasCI, Bool.or_eq_false_iff] at h
    simp only [List.cons_append, hasCI, Bool.or_eq_false_iff]
    exact ⟨leadsCI_extend_nl actionPat (c :: t2) actionPat_no_nl h.1,
      hasCI_append_nl t2 h.2⟩

theorem reSearch_skip_block {α : Type} (restM : List Char → Option α) :
    ∀ (t u : List Char), hasCI actionPat (t ++ ['\n']) = false →
      reSearch actionPat restM (t ++ '\n' :: u) = reSearch actionPat restM ('\n' :: u)
  | [], u, _ => rfl
  | c :: t2, u, h => by
    simp only [List.cons_append, hasCI, Bool.or_eq_false_iff] at h
    have h1 : leadsCI actionPat (c :: (t2 ++ '\n' :: u)) = false := by
      have := leadsCI_stop_at_nl actionPat (c :: t2) u actionPat_no_nl
      simp only [List.cons_append] at this
      rw [this]
      exact h.1
    rw [List.cons_append, reSearch_cons_neg actionPat restM c (t2 ++ '\n' :: u) h1]
    exact reSearch_skip_block restM t2 u (by simpa [hasCI] using h.2)

theorem hasCI_tail_false (pat : List Char) (a : Char) (as : List Char)
    (h : hasCI pat (a :: as) = false) : hasCI pat as = false := by
  simp only [hasCI, Bool.or_eq_false_iff] at h
  exact h.2

theorem leadsCI_false_of_hasCI_false (pat x : List Char) (h : hasCI pat x = false) :
    leadsCI pat x = false := by
  cases x with
  | nil => simpa [hasCI] using h
  | cons a as =>
    simp only [hasCI, Bool.or_eq_false_iff] at h
    exact h.1

theorem lazyDotAll_marker :
    ∀ (l u : List Char), l ≠ [] → hasCI actionPat (l ++ ['\n']) = false →
      lookTA ('\n' :: u) = true →
      lazyDotAll lookTA (l ++ '\n' :: u) = some l
  | [], _, hne, _, _ => absurd rfl hne
  | [c], u, _, _, hlook => by
    rw [List.singleton_append, lazyDotAll, hlook]
    simp
  | c :: c2 :: cs, u, _, hh, hlook => by
    simp only [List.cons_append] at hh
    have hh1 : hasCI actionPat (c2 :: (cs ++ ['\n'])) = false :=
      hasCI_tail_false actionPat c _ hh
    have hh2 : hasCI actionPat (cs ++ ['\n']) = false :=
      hasCI_tail_false actionPat c2 _ hh1
    have hlead2 : leadsCI actionPat (cs ++ ['\n']) = false :=
      leadsCI_false_of_hasCI_false actionPat _ hh2
    have hlook2 : lookTA ((c2 :: cs) ++ '\n' :: u) = false := by
      simp only [lookTA, List.cons_append, Bool.or_eq_false_iff]
      refine ⟨⟨?_, ?_⟩, ?_⟩
      · simp only [leadsCI]
        rw [leadsCI_stop_at_nl actionPat cs u actionPat_no_nl, hlead2]
        simp
      · simp
      · have hne2 : c2 :: (cs ++ '\n' :: u) ≠ ['\n'] := by
          intro he
          injection he with e1 e2
          simp at e2
        simp [hne2]
    have ih := lazyDotAll_marker (c2 :: cs) u (by simp)
      (by simp only [List.cons_append]; exact hh1) hlook
    simp only [List.cons_append] at ih
    rw [List.cons_append, lazyDotAll, hlook2]
    simp [ih]

theorem lazyNoNL_all :
    ∀ l : List Char, l ≠ [] → (∀ c ∈ l, c ≠ '\n') → lazyNoNL lookNL l = some l
  | [], hne, _ => absurd rfl hne
  | [c], _, hnl => by
    have : ¬ c = '\n' := hnl c (by simp)
    simp [lazyNoNL, lookNL, this]
  | c :: c2 :: cs, _, hnl => by
    have h1 : ¬ c = '\n' := hnl c (by simp)
    have h2 : ¬ c2 = '\n' := hnl c2 (by simp)
    have ih := lazyNoNL_all (c2 :: cs) (by simp) (fun q hq => hnl q (by simp [hq]))
    have hlook : lookNL (c2 :: cs) = false := by simp [lookNL, h2]
    rw [lazyNoNL, if_neg h1, hlook]
    simp [ih]

theorem wsCount_cons_zero (c : Char) (cs : List Char) (h : pySpace c = false) :
    wsCount (c :: cs) = 0 := by
  simp [wsCount, h]

theorem wsCount_append_zero (l r : List Char) (hne : l ≠ []) (h : wsCount l = 0) :
    wsCount (l ++ r) = 0 := by
  cases l with
  | nil => exact absurd rfl hne
  | cons c cs =>
    have hc : pySpace c = false := by
      by_cases hq : pySpace c = true
      · simp [wsCount, hq] at h
      · rwa [Bool.not_eq_true] at hq
    simp [wsCount, hc]

theorem dropWhile_self_of_wsCount_zero (m : List Char) (hm : wsCount m = 0) :
    m.dropWhile pySpace = m := by
  cases m with
  | nil => rfl
  | cons c cs =>
    have hc : pySpace c = false := by
      by_cases hq : pySpace c = true
      · simp [wsCount, hq] at hm
      · rwa [Bool.not_eq_true] at hq
    simp [List.dropWhile_cons, hc]

theorem pyStrip_eq_self (l : List Char) (h1 : wsCount l = 0) (h2 : wsCount l.reverse = 0) :
    pyStrip l = l := by
  unfold pyStrip
  rw [dropWhile_self_of_wsCount_zero l h1, dropWhile_self_of_wsCount_zero l.reverse h2,
    List.reverse_reverse]

theorem dropWhile_length_le (l : List Char) : (l.dropWhile pySpace).length ≤ l.length := by
  induction l with
  | nil => simp
  | cons c cs ih =>
    by_cases hc : pySpace c = true
    · simp only [List.dropWhile_cons, hc, if_true]
      exact Nat.le_trans ih (by simp)
    · rw [Bool.not_eq_true] at hc
      simp [List.dropWhile_cons, hc]

theorem wsCount_zero_of_strip (l : List Char) (h : pyStrip l = l) : wsCount l = 0 := by
  cases l with
  | nil => rfl
  | cons c cs =>
    by_cases hq : pySpace c = true
    · exfalso
      have e1 : (c :: cs).dropWhile pySpace = cs.dropWhile pySpace := by
        simp [List.dropWhile_cons, hq]
      have e2 : (pyStrip (c :: cs)).length ≤ (cs.dropWhile pySpace).length := by
        unfold pyStrip
        rw [e1]
        calc ((cs.dropWhile pySpace).reverse.dropWhile pySpace).reverse.length
            = ((cs.dropWhile pySpace).reverse.dropWhile pySpace).length := by
              rw [List.length_reverse]
          _ ≤ (cs.dropWhile pySpace).reverse.length := dropWhile_length_le _
          _ = (cs.dropWhile pySpace).length := by rw [List.length_reverse]
      have e3 : (cs.dropWhile pySpace).length ≤ cs.length := dropWhile_length_le _
      have e4 : (pyStrip (c :: cs)).length = cs.length + 1 := by rw [h]; rfl
      omega
    · rw [Bool.not_eq_true] at hq
      simp [wsCount, hq]

theorem wsThenCap_single_space (cap : List Char → Option (List Char)) (l x : List Char)
    (h0 : wsCount l = 0) (hc : cap l = some x) :
    wsThenCap cap (' ' :: l) = some x := by
  have h1 : wsCount (' ' :: l) = 1 := by simp [wsCount, pySpace, h0]
  unfold wsThenCap
  rw [h1, greedyWs]
  simp only [List.drop_succ_cons, List.drop_zero]
  rw [hc]

theorem digitsTake_append (d r : List Char) (hd : ∀ c ∈ d, c.isDigit = true)
    (hr : ∀ c cs, r = c :: cs → c.isDigit = false) :
    digitsTake (d ++ r) = (d, r) := by
  induction d with
  | nil =>
    cases r with
    | nil => rfl
    | cons c cs => simp [digitsTake, hr c cs rfl]
  | cons x d2 ih =>
    have hx : x.isDigit = true := hd x (by simp)
    have ih2 := ih (fun q hq => hd q (by simp [hq]))
    simp [digitsTake, hx, ih2]

end WebAgent

namespace WebAgent

/-! ## The standard "Thought/Action click" response shape -/

theorem clickArgs_append (dx dy : List Char) (hdx : dx ≠ [])
    (hdxd : ∀ c ∈ dx, c.isDigit = true) (hdy : dy ≠ [])
    (hdyd : ∀ c ∈ dy, c.isDigit = true) :
    clickArgs (dx ++ ',' :: ' ' :: (dy ++ [')'])) =
      some (.click (digitsVal dx) (digitsVal dy)) := by
  have h1 : digitsTake (dx ++ ',' :: ' ' :: (dy ++ [')'])) =
      (dx, ',' :: ' ' :: (dy ++ [')'])) :=
    digitsTake_append dx _ hdxd (by
      intro c cs hc
      injection hc with e1 _
      rw [← e1]
      decide)
  have hdy0 : wsCount (dy ++ [')']) = 0 := by
    obtain ⟨y1, dy2, rfl⟩ := List.exists_cons_of_ne_nil hdy
    rw [List.cons_append]
    exact wsCount_cons_zero _ _ (digit_not_space y1 (hdyd y1 (by simp)))
  have h2 : wsCount (' ' :: (dy ++ [')'])) = 1 := by
    rw [wsCount]
    simp [pySpace, hdy0]
  have h3 : digitsTake (dy ++ [')']) = (dy, [')']) :=
    digitsTake_append dy _ hdyd (by
      intro c cs hc
      injection hc with e1 _
      rw [← e1]
      decide)
  have hne1 : dx.isEmpty = false := by
    obtain ⟨x1, dx2, rfl⟩ := List.exists_cons_of_ne_nil hdx
    rfl
  have hne2 : dy.isEmpty = false := by
    obtain ⟨y1, dy2, rfl⟩ := List.exists_cons_of_ne_nil hdy
    rfl
  simp only [clickArgs, h1, hne1, Bool.false_eq_true, if_false, h2,
    List.drop_succ_cons, List.drop_zero, h3, hne2]

theorem matchAction_click (dx dy : List Char) (hdx : dx ≠ [])
    (hdxd : ∀ c ∈ dx, c.isDigit = true) (hdy : dy ≠ [])
    (hdyd : ∀ c ∈ dy, c.isDigit = true) :
    matchAction ('c' :: 'l' :: 'i' :: 'c' :: 'k' :: '(' :: (dx ++ ',' :: ' ' :: (dy ++ [')']))) =
      some (.click (digitsVal dx) (digitsVal dy)) := by
  have hsearch : reSearch clickKw clickArgs
      ('c' :: 'l' :: 'i' :: 'c' :: 'k' :: '(' :: (dx ++ ',' :: ' ' :: (dy ++ [')']))) =
      some (.click (digitsVal dx) (digitsVal dy)) :=
    reSearch_cons_pos clickKw clickArgs _ _ _ rfl
      (clickArgs_append dx dy hdx hdxd hdy hdyd)
  unfold matchAction
  rw [hsearch]
  rfl

theorem thoughtReason_std (t u : List Char) (htne : t ≠ []) (hstrip : pyStrip t = t)
    (hmark : hasCI actionPat t = false) (hlook : lookTA ('\n' :: u) = true) :
    thoughtReason ('T' :: 'h' :: 'o' :: 'u' :: 'g' :: 'h' :: 't' :: ':' :: ' ' ::
      (t ++ '\n' :: u)) = t := by
  have hcap : lazyDotAll lookTA (t ++ '\n' :: u) = some t :=
    lazyDotAll_marker t u htne (hasCI_append_nl t hmark) hlook
  have hws0 : wsCount (t ++ '\n' :: u) = 0 :=
    wsCount_append_zero t _ htne (wsCount_zero_of_strip t hstrip)
  have hws : wsThenCap (lazyDotAll lookTA) (' ' :: (t ++ '\n' :: u)) = some t :=
    wsThenCap_single_space _ _ _ hws0 hcap
  have hsearch := reSearch_cons_pos thoughtPat (fun r => wsThenCap (lazyDotAll lookTA) r)
    'T' ('h' :: 'o' :: 'u' :: 'g' :: 'h' :: 't' :: ':' :: ' ' :: (t ++ '\n' :: u)) t
    rfl (by exact hws)
  unfold thoughtReason
  rw [hsearch]
  exact hstrip

theorem actionLine_std (t dx dy : List Char) (hmark : hasCI actionPat t = false)
    (_hdx : dx ≠ []) (hdxd : ∀ c ∈ dx, c.isDigit = true)
    (_hdy : dy ≠ []) (hdyd : ∀ c ∈ dy, c.isDigit = true) :
    actionLine ('T' :: 'h' :: 'o' :: 'u' :: 'g' :: 'h' :: 't' :: ':' :: ' ' ::
        (t ++ '\n' :: 'A' :: 'c' :: 't' :: 'i' :: 'o' :: 'n' :: ':' :: ' ' ::
          'c' :: 'l' :: 'i' :: 'c' :: 'k' :: '(' :: (dx ++ ',' :: ' ' :: (dy ++ [')'])))) =
      some ('c' :: 'l' :: 'i' :: 'c' :: 'k' :: '(' :: (dx ++ ',' :: ' ' :: (dy ++ [')']))) := by
  have hrest : wsThenCap (lazyNoNL lookNL)
      (' ' :: ('c' :: 'l' :: 'i' :: 'c' :: 'k' :: '(' :: (dx ++ ',' :: ' ' :: (dy ++ [')'])))) =
      some ('c' :: 'l' :: 'i' :: 'c' :: 'k' :: '(' :: (dx ++ ',' :: ' ' :: (dy ++ [')']))) := by
    apply wsThenCap_single_space
    · exact wsCount_cons_zero _ _ (by decide)
    · apply lazyNoNL_all
      · simp
      · intro c hc
        simp only [List.mem_cons, List.mem_append, List.mem_singleton] at hc
        rcases hc with rfl | rfl | rfl | rfl | rfl | rfl | hc2 | rfl | rfl | hc3 | rfl | h0
        · decide
        · decide
        · decide
        · decide
        · decide
        · decide
        · exact digit_ne_nl c (hdxd c hc2)
        · decide
        · decide
        · exact digit_ne_nl c (hdyd c hc3)
        · decide
        · exact absurd h0 (by simp)
  have hpos := reSearch_cons_pos actionPat (fun r => wsThenCap (lazyNoNL lookNL) r) 'A'
    ('c' :: 't' :: 'i' :: 'o' :: 'n' :: ':' :: ' ' ::
      'c' :: 'l' :: 'i' :: 'c' :: 'k' :: '(' :: (dx ++ ',' :: ' ' :: (dy ++ [')'])))
    ('c' :: 'l' :: 'i' :: 'c' :: 'k' :: '(' :: (dx ++ ',' :: ' ' :: (dy ++ [')'])))
    rfl (by exact hrest)
  unfold actionLine
  rw [show reSearch actionPat (fun r => wsThenCap (lazyNoNL lookNL) r)
        ('T' :: 'h' :: 'o' :: 'u' :: 'g' :: 'h' :: 't' :: ':' :: ' ' ::
          (t ++ '\n' :: 'A' :: 'c' :: 't' :: 'i' :: 'o' :: 'n' :: ':' :: ' ' ::
            'c' :: 'l' :: 'i' :: 'c' :: 'k' :: '(' :: (dx ++ ',' :: ' ' :: (dy ++ [')'])))) =
      reSearch actionPat (fun r => wsThenCap (lazyNoNL lookNL) r)
        (t ++ '\n' :: 'A' :: 'c' :: 't' :: 'i' :: 'o' :: 'n' :: ':' :: ' ' ::
          'c' :: 'l' :: 'i' :: 'c' :: 'k' :: '(' :: (dx ++ ',' :: ' ' :: (dy ++ [')'])))
    from rfl]
  rw [reSearch_skip_block (fun r => wsThenCap (lazyNoNL lookNL) r) t
    ('A' :: 'c' :: 't' :: 'i' :: 'o' :: 'n' :: ':' :: ' ' ::
      'c' :: 'l' :: 'i' :: 'c' :: 'k' :: '(' :: (dx ++ ',' :: ' ' :: (dy ++ [')'])))
    (hasCI_append_nl t hmark)]
  rw [show reSearch actionPat (fun r => wsThenCap (lazyNoNL lookNL) r)
        ('\n' :: 'A' :: 'c' :: 't' :: 'i' :: 'o' :: 'n' :: ':' :: ' ' ::
          'c' :: 'l' :: 'i' :: 'c' :: 'k' :: '(' :: (dx ++ ',' :: ' ' :: (dy ++ [')'])))  =
      reSearch actionPat (fun r => wsThenCap (lazyNoNL lookNL) r)
        ('A' :: 'c' :: 't' :: 'i' :: 'o' :: 'n' :: ':' :: ' ' ::
          'c' :: 'l' :: 'i' :: 'c' :: 'k' :: '(' :: (dx ++ ',' :: ' ' :: (dy ++ [')'])))
    from rfl]
  exact hpos

end WebAgent

namespace WebAgent

/-- C7 (counterexample): the claim quantifies over every reasoning text T. For
T = "a\nAction: click(9, 9)" and X = 1, Y = 2 the input has the claimed shape
"Thought: T\nAction: click(X, Y)", but the parser matches the first
"Action:" line inside T: it returns Click(9, 9) with reasoning "a", not
Click(1, 2) with reasoning T. -/
theorem c7_counterexample :
    ActionParser.parse "Thought: a\nAction: click(9, 9)\nAction: click(1, 2)" =
      some ⟨.click 9 9, "a"⟩ ∧
    ActionParser.parse "Thought: a\nAction: click(9, 9)\nAction: click(1, 2)" ≠
      some ⟨.click 1 2, "a\nAction: click(9, 9)"⟩ := by
  constructor
  · decide
  · decide

/-- C7 (amended): for every text "Thought: T\nAction: click(X, Y)" where the
reasoning T is nonempty (it may span several lines), contains no
case-insensitive occurrence of the "action:" marker, and carries no
surrounding whitespace, and where X and Y are decimal numerals, parse
returns Click with x = X, y = Y and reasoning exactly T. Case-insensitive
marker/keyword matching and the missing-"Thought:"-gives-empty-reasoning
behavior are established on concrete instances in the remaining conjuncts. -/
theorem c7_parse_click_form (t dx dy : List Char)
    (htne : t ≠ []) (hstrip : pyStrip t = t)
    (hmark : hasCI actionPat t = false)
    (hdx : dx ≠ []) (hdxd : ∀ c ∈ dx, c.isDigit = true)
    (hdy : dy ≠ []) (hdyd : ∀ c ∈ dy, c.isDigit = true) :
    ActionParser.parseL
      ('T' :: 'h' :: 'o' :: 'u' :: 'g' :: 'h' :: 't' :: ':' :: ' ' ::
        (t ++ '\n' :: 'A' :: 'c' :: 't' :: 'i' :: 'o' :: 'n' :: ':' :: ' ' ::
          'c' :: 'l' :: 'i' :: 'c' :: 'k' :: '(' :: (dx ++ ',' :: ' ' :: (dy ++ [')'])))) =
      some ⟨.click (digitsVal dx) (digitsVal dy), t.asString⟩ ∧
    ActionParser.parse "THOUGHT: go\nACTION: CLICK(640, 300)" =
      some ⟨.click 640 300, "go"⟩ ∧
    ActionParser.parse "Action: click(7, 8)" = some ⟨.click 7 8, ""⟩ := by
  refine ⟨?_, by decide, by decide⟩
  have hT := thoughtReason_std t
    ('A' :: 'c' :: 't' :: 'i' :: 'o' :: 'n' :: ':' :: ' ' ::
      'c' :: 'l' :: 'i' :: 'c' :: 'k' :: '(' :: (dx ++ ',' :: ' ' :: (dy ++ [')'])))
    htne hstrip hmark rfl
  have hA := actionLine_std t dx dy hmark hdx hdxd hdy hdyd
  have hM := matchAction_click dx dy hdx hdxd hdy hdyd
  have hshape : ('c' :: 'l' :: 'i' :: 'c' :: 'k' :: '(' :: (dx ++ ',' :: ' ' :: (dy ++ [')']))) =
      ('c' :: 'l' :: 'i' :: 'c' :: 'k' :: '(' :: (dx ++ ',' :: ' ' :: dy)) ++ [')'] := by
    simp
  have hrev0 : wsCount
      ('c' :: 'l' :: 'i' :: 'c' :: 'k' :: '(' :: (dx ++ ',' :: ' ' :: (dy ++ [')']))).reverse
      = 0 := by
    rw [hshape, List.reverse_append]
    simp only [List.reverse_cons, List.reverse_nil, List.nil_append, List.singleton_append]
    exact wsCount_cons_zero _ _ (by decide)
  have hstripc : pyStrip ('c' :: 'l' :: 'i' :: 'c' :: 'k' :: '(' ::
        (dx ++ ',' :: ' ' :: (dy ++ [')'])))
      = 'c' :: 'l' :: 'i' :: 'c' :: 'k' :: '(' :: (dx ++ ',' :: ' ' :: (dy ++ [')'])) :=
    pyStrip_eq_self _ (wsCount_cons_zero _ _ (by decide)) hrev0
  simp only [ActionParser.parseL, hA, hstripc, hM, hT]

/-- Witness for the amended C7 at T = "go", X = 12, Y = 34. -/
theorem c7_parse_click_form_witness :
    ActionParser.parseL (String.data "Thought: go\nAction: click(12, 34)") =
      some ⟨.click 12 34, "go"⟩ := by
  have h := (c7_parse_click_form ['g', 'o'] ['1', '2'] ['3', '4']
    (by decide) (by decide) (by decide)
    (by decide) (by decide) (by decide) (by decide)).1
  exact h

end WebAgent

namespace WebAgent

/-! ## Inversion: every parsed action carries nonnegative numbers -/

theorem orElse_some {α : Type} (o : Option α) (f : Unit → Option α) (x : α)
    (h : o.orElse f = some x) : o = some x ∨ f () = some x := by
  cases o with
  | some v => left; simpa [Option.orElse] using h
  | none => right; simpa [Option.orElse] using h

theorem reSearch_from_rest {α : Type} (pat : List Char) (restM : List Char → Option α) :
    ∀ (l : List Char) (x : α), reSearch pat restM l = some x → ∃ l2, restM l2 = some x := by
  intro l
  induction l with
  | nil =>
    intro x h
    unfold reSearch at h
    split at h
    · exact ⟨[], h⟩
    · cases h
  | cons c cs ih =>
    intro x h
    unfold reSearch at h
    split at h
    · split at h
      · rename_i y hy
        cases h
        exact ⟨_, hy⟩
      · exact ih x h
    · exact ih x h

theorem clickArgs_shape (r : List Char) (d : ActionData) (h : clickArgs r = some d) :
    ∃ m n : Nat, d = .click m n := by
  simp only [clickArgs] at h
  repeat' split at h
  all_goals cases h
  all_goals exact ⟨_, _, rfl⟩

theorem scrollArgs_shape (r : List Char) (d : ActionData) (h : scrollArgs r = some d) :
    ∃ s : String, ∃ n : Int, d = .scroll s n ∧ 0 ≤ n := by
  simp only [scrollArgs] at h
  repeat' split at h
  all_goals cases h
  all_goals exact ⟨_, _, rfl, by positivity⟩

theorem waitArgs_shape (r : List Char) (d : ActionData) (h : waitArgs r = some d) :
    ∃ q : Rat, d = .wait q ∧ 0 ≤ q := by
  simp only [waitArgs] at h
  repeat' split at h
  all_goals cases h
  all_goals exact ⟨_, rfl, by positivity⟩

theorem typeArgs_shape (r : List Char) (d : ActionData) (h : typeArgs r = some d) :
    ∃ tx, d = .typeText tx := by
  unfold typeArgs at h
  split at h
  · split at h
    · rw [Option.map_eq_some'] at h
      obtain ⟨w, _, hw⟩ := h
      exact ⟨_, hw.symm⟩
    · cases h
  · cases h

theorem pressArgs_shape (r : List Char) (d : ActionData) (h : pressArgs r = some d) :
    ∃ k, d = .press k := by
  simp only [pressArgs] at h
  repeat' split at h
  all_goals cases h
  all_goals exact ⟨_, rfl⟩

theorem finishArgs_shape (r : List Char) (d : ActionData) (h : finishArgs r = some d) :
    d = .finish := by
  unfold finishArgs at h
  split at h
  · exact (Option.some.inj h).symm
  · cases h

theorem failArgs_shape (r : List Char) (d : ActionData) (h : failArgs r = some d) :
    ∃ rr, d = .fail rr := by
  unfold failArgs at h
  split at h
  · split at h
    · rw [Option.map_eq_some'] at h
      obtain ⟨w, _, hw⟩ := h
      exact ⟨_, hw.symm⟩
    · cases h
  · cases h

theorem matchAction_nonneg (tx : List Char) (d : ActionData) (h : matchAction tx = some d) :
    (∀ x y, d = .click x y → 0 ≤ x ∧ 0 ≤ y) ∧
    (∀ s n, d = .scroll s n → (0 : Int) ≤ n) ∧
    (∀ q, d = .wait q → (0 : Rat) ≤ q) := by
  unfold matchAction at h
  rcases orElse_some _ _ _ h with h1 | h
  · obtain ⟨l2, h2⟩ := reSearch_from_rest clickKw clickArgs _ _ h1
    obtain ⟨m, n, rfl⟩ := clickArgs_shape _ _ h2
    refine ⟨?_, ?_, ?_⟩
    · intro x y hxy
      injection hxy with e1 e2
      exact ⟨e1 ▸ (by positivity), e2 ▸ (by positivity)⟩
    · intro s n2 hc; cases hc
    · intro q hc; cases hc
  · rcases orElse_some _ _ _ h with h1 | h
    · obtain ⟨l2, h2⟩ := reSearch_from_rest typeKw typeArgs _ _ h1
      obtain ⟨w, rfl⟩ := typeArgs_shape _ _ h2
      refine ⟨?_, ?_, ?_⟩
      · intro x y hc; cases hc
      · intro s n hc; cases hc
      · intro q hc; cases hc
    · rcases orElse_some _ _ _ h with h1 | h
      · obtain ⟨l2, h2⟩ := reSearch_from_rest scrollKw scrollArgs _ _ h1
        obtain ⟨sd, n, rfl, hn⟩ := scrollArgs_shape _ _ h2
        refine ⟨?_, ?_, ?_⟩
        · intro x y hc; cases hc
        · intro s n2 hc
          injection hc with e1 e2
          exact e2 ▸ hn
        · intro q hc; cases hc
      · rcases orElse_some _ _ _ h with h1 | h
        · obtain ⟨l2, h2⟩ := reSearch_from_rest waitKw waitArgs _ _ h1
          obtain ⟨q, rfl, hq⟩ := waitArgs_shape _ _ h2
          refine ⟨?_, ?_, ?_⟩
          · intro x y hc; cases hc
          · intro s n hc; cases hc
          · intro q2 hc
            injection hc with e1
            exact e1 ▸ hq
        · rcases orElse_some _ _ _ h with h1 | h
          · obtain ⟨l2, h2⟩ := reSearch_from_rest pressKw pressArgs _ _ h1
            obtain ⟨k, rfl⟩ := pressArgs_shape _ _ h2
            refine ⟨?_, ?_, ?_⟩
            · intro x y hc; cases hc
            · intro s n hc; cases hc
            · intro q hc; cases hc
          · rcases orElse_some _ _ _ h with h1 | h
            · obtain ⟨l2, h2⟩ := reSearch_from_rest finishKw finishArgs _ _ h1
              obtain rfl := finishArgs_shape _ _ h2
              refine ⟨?_, ?_, ?_⟩
              · intro x y hc; cases hc
              · intro s n hc; cases hc
              · intro q hc; cases hc
            · obtain ⟨l2, h2⟩ := reSearch_from_rest failKw failArgs _ _ h
              obtain ⟨rr, rfl⟩ := failArgs_shape _ _ h2
              refine ⟨?_, ?_, ?_⟩
              · intro x y hc; cases hc
              · intro s n hc; cases hc
              · intro q hc; cases hc

/-- C10: every Action produced by the parser carries only nonnegative numeric
parameters (a Click's x and y, a Scroll's amount, a Wait's seconds), because
the grammar matches only unsigned digit runs; hence for parser-produced Click
actions the validator's lower-bound checks always hold and a Click rejection
arises exactly from exceeding the viewport's upper bounds. -/
theorem c10_parser_nonneg (s : List Char) (a : Action)
    (h : ActionParser.parseL s = some a) :
    (∀ x y, a.data = .click x y → 0 ≤ x ∧ 0 ≤ y) ∧
    (∀ dn n, a.data = .scroll dn n → (0 : Int) ≤ n) ∧
    (∀ q, a.data = .wait q → (0 : Rat) ≤ q) ∧
    (∀ x y vw vh, a.data = .click x y →
      ((ActionParser.validate_action a vw vh).1 = false ↔ (vw < x ∨ vh < y))) := by
  simp only [ActionParser.parseL] at h
  split at h
  · exact absurd h (by simp)
  · split at h
    · exact absurd h (by simp)
    · rename_i d hma
      cases h
      have hm := matchAction_nonneg _ _ hma
      refine ⟨hm.1, hm.2.1, hm.2.2, ?_⟩
      intro x y vw vh hd
      obtain ⟨hx1, hx2⟩ := hm.1 x y hd
      have hd2 : d = .click x y := hd
      subst hd2
      have hval : (ActionParser.validate_action
          ⟨.click x y, (thoughtReason s).asString⟩ vw vh).1 = false ↔
          ¬(0 ≤ x ∧ x ≤ vw ∧ 0 ≤ y ∧ y ≤ vh) := by
        simp only [ActionParser.validate_action]
        by_cases hb : 0 ≤ x ∧ x ≤ vw ∧ 0 ≤ y ∧ y ≤ vh
        · rw [if_neg (not_not_intro hb)]
          simp [hb]
        · rw [if_pos hb]
          simp [hb]
      rw [hval]
      omega

/-- Witness for C10 at the concrete response line "Action: click(3, 4)". -/
theorem c10_parser_nonneg_witness :
    ActionParser.parseL (String.data "Action: click(3, 4)") = some ⟨.click 3 4, ""⟩ ∧
    ((0 : Int) ≤ 3 ∧ (0 : Int) ≤ 4) := by
  refine ⟨by decide, ?_⟩
  exact (c10_parser_nonneg (String.data "Action: click(3, 4)") ⟨.click 3 4, ""⟩
    (by decide)).1 3 4 rfl

end WebAgent
